import Mathlib

/-!
Verification of the CEL-based rule evaluation pipeline of the go-sdk
repository (`plugins/cel.go`).

The development shallowly embeds the Go code:

* JSON documents are modelled by the inductive `GoSdk.Json`; the raw text
  form of a document is modelled by `GoSdk.RawData`, which records whether
  the text is well-formed JSON (and if so, its parse tree) or malformed.
  JSON numbers are modelled by `Rat` (the Go code holds them as `float64`;
  none of the verified properties depends on floating-point rounding).
* `json.Unmarshal` into `map[string]interface{}` is modelled by
  `unmarshalMap`: it succeeds exactly on a JSON object (later duplicate
  keys overwrite earlier ones, as in `encoding/json`) and on the JSON
  literal `null`, which leaves the map nil — i.e. empty.
* The `gjson` path queries used by the accessor functions are modelled by
  `gjsonGet` over the parsed tree, with a path already split into its
  dot-separated segments (the surface dotted syntax is delegated by the
  code to the external `gjson` collaborator; `parsePath` performs the
  core dot splitting).  A segment addresses an object field by name and
  an array element by decimal index.
* The CEL environment, compiler and evaluator (the `cel-go` dependency)
  are modelled on a fragment sufficient for the claims: declarations are
  `(name, CelType)` pairs added in option order, where redeclaring a name
  with an equivalent type is a no-op and redeclaring it with a different
  type is an overlapping-identifier issue reported at compile time
  (cel-go's checker semantics); the checker `check` collects the full
  list of issues over the whole expression; the evaluator `evalExpr`
  runs the expression against the bound top-level values with the three
  accessor functions closed over the raw document text.
* `Evaluate` mirrors `plugins/cel.go`'s `Evaluate` stage by stage and
  additionally records the list of pipeline stages entered, so that
  claims about stages never running are directly statable.
-/

namespace GoSdk

/-- A parsed JSON value. Numbers are modelled by `Rat`. -/
inductive Json where
  | null : Json
  | bool (b : Bool) : Json
  | num (q : Rat) : Json
  | str (s : String) : Json
  | arr (xs : List Json) : Json
  | obj (kvs : List (String × Json)) : Json

/-- The raw text form of the `data` argument: either well-formed JSON with
parse tree `j`, or text that is not valid JSON. -/
inductive RawData where
  | wellFormed (j : Json) : RawData
  | malformed : RawData

/-- Replace the value of key `k` if present (last duplicate wins, as for
`encoding/json` object decoding), else append the pair. -/
def insertKV : List (String × Json) → String → Json → List (String × Json)
  | [], k, v => [(k, v)]
  | (k0, v0) :: rest, k, v =>
    if k0 = k then (k0, v) :: rest else (k0, v0) :: insertKV rest k v

/-- Collapse duplicate object keys the way `encoding/json` map decoding
does: later occurrences overwrite earlier ones. -/
def dedupKVs (kvs : List (String × Json)) : List (String × Json) :=
  kvs.foldl (fun acc kv => insertKV acc kv.1 kv.2) []

/-- `json.Unmarshal(data, &valuesMap)` for `valuesMap : map[string]interface{}`:
succeeds on a JSON object, and on the JSON literal `null` (which sets the
map to nil, i.e. leaves it empty); every other payload — malformed text or
a non-object JSON value — is an unmarshal error. -/
def unmarshalMap : RawData → Option (List (String × Json))
  | .malformed => none
  | .wellFormed (.obj kvs) => some (dedupKVs kvs)
  | .wellFormed .null => some []
  | .wellFormed _ => none

/-- Read a nonempty run of decimal digits, accumulating its value;
`none` on any non-digit character. -/
def decDigitsAux : List Char → Nat → Option Nat
  | [], n => some n
  | c :: rest, n =>
    if c.isDigit then decDigitsAux rest (n * 10 + (c.toNat - 48)) else none

/-- A path segment read as a decimal array index, when it is one. -/
def segIndex (s : String) : Option Nat :=
  match s.data with
  | [] => none
  | cs => decDigitsAux cs 0

/-- One step of a gjson path lookup: an object is addressed by field name
(first occurrence wins, as in gjson), an array by decimal index. -/
def getSeg : Json → String → Option Json
  | .obj kvs, s => List.lookup s kvs
  | .arr xs, s =>
    match segIndex s with
    | some i => xs.get? i
    | none => none
  | _, _ => none

/-- Full gjson path lookup over a parsed document. -/
def getPath : Json → List String → Option Json
  | j, [] => some j
  | j, s :: rest =>
    match getSeg j s with
    | some j2 => getPath j2 rest
    | none => none

/-- `gjson.Get` over the raw document text, at segment level: on malformed
text no value is found. -/
def gjsonGet : RawData → List String → Option Json
  | .wellFormed j, path => getPath j path
  | .malformed, _ => none

/-- Split a list of characters at the dots, the segment read so far held
reversed in `acc`. -/
def splitDotsAux : List Char → List Char → List String
  | [], acc => [String.mk acc.reverse]
  | c :: rest, acc =>
    if c = '.' then String.mk acc.reverse :: splitDotsAux rest []
    else splitDotsAux rest (c :: acc)

/-- Split a path string into its dot-separated segments (the core of
gjson's path syntax). -/
def parsePath (p : String) : List String :=
  splitDotsAux p.data []

/-- The binding of the CEL function `exists(path) -> bool`
(`celExists` in `plugins/cel.go`): `gjson.Get(*s, key).Exists()`. -/
def celExists (d : RawData) (path : List String) : Bool :=
  (gjsonGet d path).isSome

/-- The binding of the overload `safe(path: string, def: string) -> string`
(`safeString` in `plugins/cel.go`): the value when it exists with gjson
type `String`, else the default. -/
def safeString (d : RawData) (path : List String) (dflt : String) : String :=
  match gjsonGet d path with
  | some (.str s) => s
  | _ => dflt

/-- The binding of the overload `safe(path: string, def: double) -> double`
(`safeNum` in `plugins/cel.go`): the value when it exists with gjson type
`Number`, else the default. -/
def safeNum (d : RawData) (path : List String) (dflt : Rat) : Rat :=
  match gjsonGet d path with
  | some (.num q) => q
  | _ => dflt

/-- The binding of the overload `safe(path: string, def: bool) -> bool`
(`safeBool` in `plugins/cel.go`): the value when it exists and
`IsBool()` holds (gjson type `True` or `False`), else the default. -/
def safeBool (d : RawData) (path : List String) (dflt : Bool) : Bool :=
  match gjsonGet d path with
  | some (.bool b) => b
  | _ => dflt

/-- Symbolic CEL types (`*cel.Type` values used by `plugins/cel.go`). -/
inductive CelType where
  | bool : CelType
  | string : CelType
  | int : CelType
  | uint : CelType
  | double : CelType
  | bytes : CelType
  | timestamp : CelType
  | null : CelType
  | dyn : CelType
  | list (elem : CelType) : CelType
  | map (key val : CelType) : CelType
  | object (name : String) : CelType
deriving DecidableEq, Repr

/-- Go dynamic values (`interface{}`), covering the concrete types that
`valueToCelType`'s type switch distinguishes, plus the types that fall to
its `default` arm: the 8/16-bit integer types (absent from the switch) and
an arbitrary other concrete type, identified by its `reflect` type string. -/
inductive GoValue where
  | goBool (b : Bool) : GoValue
  | goString (s : String) : GoValue
  | goInt (n : Int) : GoValue
  | goInt32 (n : Int) : GoValue
  | goInt64 (n : Int) : GoValue
  | goUint (n : Nat) : GoValue
  | goUint32 (n : Nat) : GoValue
  | goUint64 (n : Nat) : GoValue
  | goFloat32 (q : Rat) : GoValue
  | goFloat64 (q : Rat) : GoValue
  | goBytes (bs : List Nat) : GoValue
  | goTime (sec : Int) (nsec : Nat) : GoValue
  | goMapStrAny (kvs : List (String × GoValue)) : GoValue
  | goMapStrPb (kvs : List (String × GoValue)) : GoValue
  | goSliceAny (xs : List GoValue) : GoValue
  | goNil : GoValue
  | goProtoMsg (typeName : String) : GoValue
  | goInt8 (n : Int) : GoValue
  | goInt16 (n : Int) : GoValue
  | goUint8 (n : Nat) : GoValue
  | goUint16 (n : Nat) : GoValue
  | goOther (typeName : String) : GoValue

/-- `reflect.TypeOf(value).String()` for the values that reach the
`default` arm of `valueToCelType`'s type switch. -/
def reflectTypeString : GoValue → String
  | .goInt8 _ => "int8"
  | .goInt16 _ => "int16"
  | .goUint8 _ => "uint8"
  | .goUint16 _ => "uint16"
  | .goOther nm => nm
  | .goBool _ => "bool"
  | .goString _ => "string"
  | .goInt _ => "int"
  | .goInt32 _ => "int32"
  | .goInt64 _ => "int64"
  | .goUint _ => "uint"
  | .goUint32 _ => "uint32"
  | .goUint64 _ => "uint64"
  | .goFloat32 _ => "float32"
  | .goFloat64 _ => "float64"
  | .goBytes _ => "[]uint8"
  | .goTime _ _ => "time.Time"
  | .goMapStrAny _ => "map[string]interface {}"
  | .goMapStrPb _ => "map[string]*structpb.Value"
  | .goSliceAny _ => "[]interface {}"
  | .goNil => "<nil>"
  | .goProtoMsg nm => nm

/-- `valueToCelType` from `plugins/cel.go`: the type-switch classifier
from a dynamic value to a symbolic CEL type.  The switch lists exactly
`bool`; `string`; `int, int32, int64`; `uint, uint32, uint64`;
`float32, float64`; `[]byte`; `time.Time`; `map[string]interface{}`;
`map[string]*structpb.Value`; `[]interface{}`; `nil`; `proto.Message`;
and a `default` arm returning `cel.ObjectType(reflect.TypeOf(value).String())`. -/
def valueToCelType : GoValue → CelType
  | .goBool _ => .bool
  | .goString _ => .string
  | .goInt _ => .int
  | .goInt32 _ => .int
  | .goInt64 _ => .int
  | .goUint _ => .uint
  | .goUint32 _ => .uint
  | .goUint64 _ => .uint
  | .goFloat32 _ => .double
  | .goFloat64 _ => .double
  | .goBytes _ => .bytes
  | .goTime _ _ => .timestamp
  | .goMapStrAny _ => .map .string .dyn
  | .goMapStrPb _ => .map .string .dyn
  | .goSliceAny _ => .list .dyn
  | .goNil => .null
  | .goProtoMsg _ => .dyn
  | v => .object (reflectTypeString v)

/-- The values handled by the `default` arm of the type switch. -/
def isDefaultCase : GoValue → Bool
  | .goInt8 _ => true
  | .goInt16 _ => true
  | .goUint8 _ => true
  | .goUint16 _ => true
  | .goOther _ => true
  | _ => false

mutual

/-- The `interface{}` value produced by `json.Unmarshal` for one JSON
value: booleans, strings, `float64` numbers, `[]interface{}` arrays,
`map[string]interface{}` objects and `nil` for null. -/
def jsonToGoValue : Json → GoValue
  | .null => .goNil
  | .bool b => .goBool b
  | .num q => .goFloat64 q
  | .str s => .goString s
  | .arr xs => .goSliceAny (jsonListToGoValue xs)
  | .obj kvs => .goMapStrAny (jsonKVsToGoValue kvs)

/-- `jsonToGoValue` mapped over a JSON array's elements. -/
def jsonListToGoValue : List Json → List GoValue
  | [] => []
  | j :: rest => jsonToGoValue j :: jsonListToGoValue rest

/-- `jsonToGoValue` mapped over a JSON object's entries. -/
def jsonKVsToGoValue : List (String × Json) → List (String × GoValue)
  | [] => []
  | (k, j) :: rest => (k, jsonToGoValue j) :: jsonKVsToGoValue rest

end

/-- Runtime CEL values, for the fragment the claims need. -/
inductive CelVal where
  | bool (b : Bool) : CelVal
  | num (q : Rat) : CelVal
  | str (s : String) : CelVal
  | nullV : CelVal
  | listV (xs : List CelVal) : CelVal
  | mapV (kvs : List (String × CelVal)) : CelVal

mutual

/-- The runtime CEL value a bound top-level document value adapts to. -/
def jsonToCelVal : Json → CelVal
  | .null => .nullV
  | .bool b => .bool b
  | .num q => .num q
  | .str s => .str s
  | .arr xs => .listV (jsonListToCelVal xs)
  | .obj kvs => .mapV (jsonKVsToCelVal kvs)

/-- `jsonToCelVal` mapped over a JSON array's elements. -/
def jsonListToCelVal : List Json → List CelVal
  | [] => []
  | j :: rest => jsonToCelVal j :: jsonListToCelVal rest

/-- `jsonToCelVal` mapped over a JSON object's entries. -/
def jsonKVsToCelVal : List (String × Json) → List (String × CelVal)
  | [] => []
  | (k, j) :: rest => (k, jsonToCelVal j) :: jsonKVsToCelVal rest

end

/-- The runtime CEL type tag of a value (`out.Type()` in the Go code). -/
def celKindOf : CelVal → CelType
  | .bool _ => .bool
  | .num _ => .double
  | .str _ => .string
  | .nullV => .null
  | .listV _ => .list .dyn
  | .mapV _ => .map .string .dyn

/-- Unary operations of the modelled expression fragment: logical
negation and the registered `exists` accessor function. -/
inductive UnOp where
  | notOp : UnOp
  | existsFn : UnOp
deriving DecidableEq, Repr

/-- Binary operations of the modelled expression fragment, including the
registered `safe` accessor function (three overloads, selected by the
static type of the default argument). -/
inductive BinOp where
  | andOp : BinOp
  | orOp : BinOp
  | eqOp : BinOp
  | gtOp : BinOp
  | addOp : BinOp
  | safeFn : BinOp
deriving DecidableEq, Repr

/-- CEL expression ASTs (the compiler's parse stage is the external
cel-go parser; claims are stated over the AST). -/
inductive Expr where
  | lit (v : CelVal) : Expr
  | ident (name : String) : Expr
  | un (op : UnOp) (a : Expr) : Expr
  | bin (op : BinOp) (a b : Expr) : Expr

/-- Compile-stage issues, as enumerated by the checker. -/
inductive Issue where
  | undeclared (name : String) : Issue
  | overlapping (name : String) : Issue
  | noOverload (op : String) : Issue
deriving DecidableEq, Repr

/-- cel-go checker type agreement: a type matches another when they are
equal or either is `dyn`. -/
def assignable (a b : CelType) : Bool :=
  a = b || a = .dyn || b = .dyn

/-- Declaration processing of the checker environment (cel-go
`checker.Env.AddIdents`): declarations are added in option order;
redeclaring a name with the same type is a no-op, redeclaring it with a
different type is an overlapping-identifier issue. -/
def addIdentsAux (acc : List (String × CelType)) (errs : List Issue) :
    List (String × CelType) → List (String × CelType) × List Issue
  | [] => (acc, errs)
  | (n, t) :: rest =>
    match List.lookup n acc with
    | some t0 =>
      if t0 = t then addIdentsAux acc errs rest
      else addIdentsAux acc (errs ++ [.overlapping n]) rest
    | none => addIdentsAux (acc ++ [(n, t)]) errs rest

/-- Build the checker's identifier scope from the declaration list. -/
def addIdents (ds : List (String × CelType)) :
    List (String × CelType) × List Issue :=
  addIdentsAux [] [] ds

/-- The static type of a literal. -/
def litType (v : CelVal) : CelType :=
  celKindOf v

/-- The type checker over the declared identifiers: returns the inferred
type together with the list of ALL issues found in the expression (the
checker keeps going after an error, assigning `dyn` to ill-typed
subexpressions, exactly so that every issue is enumerated). -/
def check (ids : List (String × CelType)) : Expr → CelType × List Issue
  | .lit v => (litType v, [])
  | .ident n =>
    match List.lookup n ids with
    | some t => (t, [])
    | none => (.dyn, [.undeclared n])
  | .un op a =>
    let ra := check ids a
    match op with
    | .notOp =>
      (.bool, ra.2 ++ (if assignable ra.1 .bool then [] else [.noOverload "!_"]))
    | .existsFn =>
      (.bool, ra.2 ++ (if assignable ra.1 .string then [] else [.noOverload "exists"]))
  | .bin op a b =>
    let ra := check ids a
    let rb := check ids b
    match op with
    | .andOp =>
      (.bool, ra.2 ++ rb.2 ++
        (if assignable ra.1 .bool && assignable rb.1 .bool then [] else [.noOverload "_&&_"]))
    | .orOp =>
      (.bool, ra.2 ++ rb.2 ++
        (if assignable ra.1 .bool && assignable rb.1 .bool then [] else [.noOverload "_||_"]))
    | .eqOp =>
      (.bool, ra.2 ++ rb.2 ++
        (if assignable ra.1 rb.1 then [] else [.noOverload "_==_"]))
    | .gtOp =>
      (.bool, ra.2 ++ rb.2 ++
        (if assignable ra.1 .double && assignable rb.1 .double then [] else [.noOverload "_>_"]))
    | .addOp =>
      (.double, ra.2 ++ rb.2 ++
        (if assignable ra.1 .double && assignable rb.1 .double then [] else [.noOverload "_+_"]))
    | .safeFn =>
      let resT :=
        if rb.1 = .string ∨ rb.1 = .double ∨ rb.1 = .bool then rb.1 else .dyn
      (resT, ra.2 ++ rb.2 ++
        (if assignable ra.1 .string &&
            (rb.1 = .string || rb.1 = .double || rb.1 = .bool || rb.1 = .dyn)
         then [] else [.noOverload "safe"]))

/-- Runtime evaluation errors. -/
inductive RtErr where
  | noSuchAttribute (name : String) : RtErr
  | noSuchOverload : RtErr
deriving DecidableEq, Repr

/-- Scalar runtime equality (CEL `==` on the modelled fragment):
same-kind scalars compare structurally, different-kind scalars compare
unequal; list or map operands are outside the fragment and error. -/
def celValEq : CelVal → CelVal → Except RtErr Bool
  | .bool a, .bool b => .ok (a == b)
  | .num a, .num b => .ok (a == b)
  | .str a, .str b => .ok (a == b)
  | .nullV, .nullV => .ok true
  | .listV _, _ => .error .noSuchOverload
  | _, .listV _ => .error .noSuchOverload
  | .mapV _, _ => .error .noSuchOverload
  | _, .mapV _ => .error .noSuchOverload
  | _, _ => .ok false

/-- The evaluator for the modelled fragment: the program runs against the
bound top-level values `binds` (from `prg.Eval(valuesMap)`), and the
accessor functions are closed over the raw document `d`.  Logical
`&&`/`||` use CEL's commutative error-absorbing semantics. -/
def evalExpr (d : RawData) (binds : List (String × CelVal)) : Expr → Except RtErr CelVal
  | .lit v => .ok v
  | .ident n =>
    match List.lookup n binds with
    | some v => .ok v
    | none => .error (.noSuchAttribute n)
  | .un op a =>
    match op, evalExpr d binds a with
    | .notOp, .ok (.bool b) => .ok (.bool (!b))
    | .notOp, .ok _ => .error .noSuchOverload
    | .notOp, .error e => .error e
    | .existsFn, .ok (.str p) => .ok (.bool (celExists d (parsePath p)))
    | .existsFn, .ok _ => .error .noSuchOverload
    | .existsFn, .error e => .error e
  | .bin op a b =>
    match op with
    | .andOp =>
      match evalExpr d binds a, evalExpr d binds b with
      | .ok (.bool false), _ => .ok (.bool false)
      | _, .ok (.bool false) => .ok (.bool false)
      | .ok (.bool a0), .ok (.bool b0) => .ok (.bool (a0 && b0))
      | .error e, _ => .error e
      | _, .error e => .error e
      | _, _ => .error .noSuchOverload
    | .orOp =>
      match evalExpr d binds a, evalExpr d binds b with
      | .ok (.bool true), _ => .ok (.bool true)
      | _, .ok (.bool true) => .ok (.bool true)
      | .ok (.bool a0), .ok (.bool b0) => .ok (.bool (a0 || b0))
      | .error e, _ => .error e
      | _, .error e => .error e
      | _, _ => .error .noSuchOverload
    | .eqOp =>
      match evalExpr d binds a, evalExpr d binds b with
      | .ok va, .ok vb =>
        match celValEq va vb with
        | .ok r => .ok (.bool r)
        | .error e => .error e
      | .error e, _ => .error e
      | _, .error e => .error e
    | .gtOp =>
      match evalExpr d binds a, evalExpr d binds b with
      | .ok (.num qa), .ok (.num qb) => .ok (.bool (qb < qa))
      | .error e, _ => .error e
      | _, .error e => .error e
      | _, _ => .error .noSuchOverload
    | .addOp =>
      match evalExpr d binds a, evalExpr d binds b with
      | .ok (.num qa), .ok (.num qb) => .ok (.num (qa + qb))
      | .error e, _ => .error e
      | _, .error e => .error e
      | _, _ => .error .noSuchOverload
    | .safeFn =>
      match evalExpr d binds a, evalExpr d binds b with
      | .ok (.str p), .ok (.str s) => .ok (.str (safeString d (parsePath p) s))
      | .ok (.str p), .ok (.num q) => .ok (.num (safeNum d (parsePath p) q))
      | .ok (.str p), .ok (.bool b0) => .ok (.bool (safeBool d (parsePath p) b0))
      | .error e, _ => .error e
      | _, .error e => .error e
      | _, _ => .error .noSuchOverload

/-- Pipeline stages of `Evaluate`, in source order. -/
inductive Stage where
  | unmarshal : Stage
  | newEnv : Stage
  | compile : Stage
  | program : Stage
  | eval : Stage
  | validate : Stage
deriving DecidableEq, Repr

/-- The typed errors `Evaluate` can return, one per failing stage. -/
inductive EvalError where
  | nilData : EvalError
  | unmarshalErr : EvalError
  | compileErr (issues : List Issue) : EvalError
  | evalErr (e : RtErr) : EvalError
  | nonBoolean : EvalError
deriving DecidableEq, Repr

/-- The observable outcome of one `Evaluate` call: the returned boolean,
the returned error, and the pipeline stages that were entered. -/
structure EvalOut where
  verdict : Bool
  error : Option EvalError
  stages : List Stage
deriving DecidableEq, Repr

/-- The variable declarations derived from the parsed document: one per
top-level key, typed by the classifier (`cel.Variable(k, valueToCelType(v))`). -/
def docDecls (m : List (String × Json)) : List (String × CelType) :=
  m.map (fun kv => (kv.1, valueToCelType (jsonToGoValue kv.2)))

/-- The runtime bindings passed to program evaluation
(`prg.Eval(valuesMap)`): the same parsed map, value-adapted. -/
def docBindings (m : List (String × Json)) : List (String × CelVal) :=
  m.map (fun kv => (kv.1, jsonToCelVal kv.2))

/-- `Evaluate` from `plugins/cel.go`, stage by stage:
nil check; `json.Unmarshal`; environment assembly (accessor functions,
then the caller-supplied extra declarations, then one variable per
top-level key); compile (declaration conflicts and checker issues, the
full list carried in the error); program creation (never fails in the
modelled fragment); evaluation; and the boolean result check.
Every error return carries `false` as the boolean, as in the source. -/
def Evaluate (data : Option RawData) (expression : Expr)
    (extraDecls : List (String × CelType)) : EvalOut :=
  match data with
  | none => ⟨false, some .nilData, []⟩
  | some raw =>
    match unmarshalMap raw with
    | none => ⟨false, some .unmarshalErr, [.unmarshal]⟩
    | some valuesMap =>
      match addIdents (extraDecls ++ docDecls valuesMap) with
      | (ids, setupIssues) =>
        match setupIssues with
        | i :: is => ⟨false, some (.compileErr (i :: is)), [.unmarshal, .newEnv, .compile]⟩
        | [] =>
          match check ids expression with
          | (_, i :: is) =>
            ⟨false, some (.compileErr (i :: is)), [.unmarshal, .newEnv, .compile]⟩
          | (_, []) =>
            match evalExpr raw (docBindings valuesMap) expression with
            | .error e =>
              ⟨false, some (.evalErr e), [.unmarshal, .newEnv, .compile, .program, .eval]⟩
            | .ok out =>
              match out with
              | .bool b =>
                ⟨b, none, [.unmarshal, .newEnv, .compile, .program, .eval, .validate]⟩
              | _ =>
                ⟨false, some .nonBoolean,
                  [.unmarshal, .newEnv, .compile, .program, .eval, .validate]⟩

end GoSdk

namespace GoSdk

/-! ## Helper lemmas -/

/-- A successful lookup is preserved by appending further pairs. -/
theorem lookup_append_of_some {l l2 : List (String × CelType)} {k : String}
    {t : CelType} (h : List.lookup k l = some t) :
    List.lookup k (l ++ l2) = some t := by
  induction l with
  | nil => simp [List.lookup] at h
  | cons hd tl ih =>
    rcases hd with ⟨n, w⟩
    rcases hk : k == n with _ | _
    · simp [List.lookup, hk] at h ⊢
      exact ih h
    · simp [List.lookup, hk] at h ⊢
      exact h

/-- Issues already recorded survive the rest of declaration processing. -/
theorem addIdentsAux_mem_errs {i : Issue} :
    ∀ (ds : List (String × CelType)) (acc : List (String × CelType))
      (errs : List Issue), i ∈ errs → i ∈ (addIdentsAux acc errs ds).2 := by
  intro ds
  induction ds with
  | nil => intro acc errs h; simpa [addIdentsAux] using h
  | cons hd tl ih =>
    intro acc errs h
    rcases hd with ⟨n, w⟩
    simp only [addIdentsAux]
    rcases hl : List.lookup n acc with _ | t0
    · exact ih _ _ h
    · by_cases he : t0 = w
      · simp only [he, if_pos rfl]
        exact ih _ _ h
      · simp only [if_neg he]
        exact ih _ _ (List.mem_append_left _ h)

/-- If a name already carries type `t` and the remaining declarations
redeclare it with a different type, an overlapping-identifier issue is
reported. -/
theorem addIdentsAux_conflict {k : String} {t u : CelType} :
    ∀ (ds : List (String × CelType)) (acc : List (String × CelType))
      (errs : List Issue), List.lookup k acc = some t → (k, u) ∈ ds →
      t ≠ u → Issue.overlapping k ∈ (addIdentsAux acc errs ds).2 := by
  intro ds
  induction ds with
  | nil => intro acc errs _ hmem _; simp at hmem
  | cons hd tl ih =>
    intro acc errs hacc hmem hne
    rcases hd with ⟨n, w⟩
    rcases List.mem_cons.mp hmem with hh | htl
    · have hn : n = k := by
        have := congrArg Prod.fst hh
        exact this.symm
      have hw : w = u := by
        have := congrArg Prod.snd hh
        exact this.symm
      subst hn; subst hw
      simp only [addIdentsAux, hacc]
      simp only [if_neg hne]
      exact addIdentsAux_mem_errs _ _ _ (List.mem_append_right _ (List.mem_singleton.mpr rfl))
    · simp only [addIdentsAux]
      rcases hl : List.lookup n acc with _ | t0
      · have hacc2 : List.lookup k (acc ++ [(n, w)]) = some t :=
          lookup_append_of_some hacc
        exact ih _ _ hacc2 htl hne
      · by_cases he : t0 = w
        · simp only [he, if_pos rfl]
          exact ih _ _ hacc htl hne
        · simp only [if_neg he]
          exact ih _ _ hacc htl hne

/-- On every error return of the pipeline the boolean is literally `false`. -/
theorem evaluate_error_or_false (d : Option RawData) (e : Expr)
    (x : List (String × CelType)) :
    (Evaluate d e x).error = none ∨ (Evaluate d e x).verdict = false := by
  unfold Evaluate
  repeat' split
  all_goals first | (left; rfl) | (right; rfl)


/-! ## Claim theorems -/

/-- C5: for every expression and every set of caller-supplied extra
declarations, `Evaluate(nil, E)` fails immediately with the nil-input
error ("data is nil"): the boolean is `false`, the error is the
nil-input error, and no pipeline stage (unmarshal, environment build,
compile, program, eval, validate) runs. -/
theorem claim_C5 (e : Expr) (x : List (String × CelType)) :
    Evaluate none e x = ⟨false, some .nilData, []⟩ :=
  rfl

/-- C10: whenever `Evaluate` returns a non-`none` error — at any stage —
the boolean returned alongside it is `false`. -/
theorem claim_C10 (d : Option RawData) (e : Expr) (x : List (String × CelType))
    (h : (Evaluate d e x).error ≠ none) : (Evaluate d e x).verdict = false :=
  (evaluate_error_or_false d e x).resolve_left h

/-- Witness for C10 at a concrete erroring input (nil data). -/
theorem claim_C10_witness :
    (Evaluate none (.lit (.bool true)) []).verdict = false :=
  claim_C10 none (.lit (.bool true)) [] (by decide)

/-- Counterexample to C6 as stated: the data string `"null"` is well-formed
JSON but NOT a JSON object, yet `Evaluate` does not fail with the
payload-parse error — `json.Unmarshal` maps the JSON literal `null` to a
nil (empty) map, and the pipeline runs to completion, here returning the
verdict `true` with no error. -/
theorem claim_C6_counterexample :
    Evaluate (some (.wellFormed .null)) (.lit (.bool true)) []
      = ⟨true, none, [.unmarshal, .newEnv, .compile, .program, .eval, .validate]⟩ :=
  rfl

/-- C6 (amended): for every non-nil data string that is neither a
well-formed JSON object nor the JSON literal `null`, `Evaluate` fails
with the payload-parse ("cannot unmarshal data") error, and the pipeline
aborts inside the unmarshal stage — no environment construction,
compilation or evaluation stage is entered. -/
theorem claim_C6 (raw : RawData) (e : Expr) (x : List (String × CelType))
    (hobj : ∀ kvs, raw ≠ .wellFormed (.obj kvs))
    (hnull : raw ≠ .wellFormed .null) :
    Evaluate (some raw) e x = ⟨false, some .unmarshalErr, [.unmarshal]⟩ := by
  rcases raw with j | _
  · rcases j with _ | b | q | s0 | xs | kvs
    · exact absurd rfl hnull
    · rfl
    · rfl
    · rfl
    · rfl
    · exact absurd rfl (hobj kvs)
  · rfl

/-- Witness for C6 (amended) at the concrete non-object payload `5`. -/
theorem claim_C6_witness :
    Evaluate (some (.wellFormed (.num 5))) (.lit (.bool true)) []
      = ⟨false, some .unmarshalErr, [.unmarshal]⟩ :=
  claim_C6 (.wellFormed (.num 5)) (.lit (.bool true)) []
    (by intro kvs h; exact absurd h (by simp)) (by simp)

/-- Counterexample to C4 as stated: `int8` is a signed integer type, but
the classifier's type switch lists only `int`, `int32`, `int64`, so an
`int8` value falls through to the `default` arm and is classified as the
opaque object type named "int8", not as Int. -/
theorem claim_C4_counterexample :
    valueToCelType (.goInt8 1) = .object "int8" ∧
      valueToCelType (.goInt8 1) ≠ CelType.int := by
  exact ⟨rfl, by decide⟩

/-- C4 (amended): the classifier is a pure function mapping bool to Bool,
string to String, the signed integers `int`/`int32`/`int64` to Int, the
unsigned integers `uint`/`uint32`/`uint64` to Uint, `float32`/`float64`
to Double, byte slices to Bytes, `time.Time` to Timestamp, string-keyed
maps (both `map[string]interface{}` and `map[string]*structpb.Value`) to
Mapping(Dyn), slices to List(Dyn), nil to Null, protocol messages to the
dynamic type, and every remaining value — including the 8/16-bit integer
types, which the switch does not list — to an opaque object type named by
the value's concrete (reflect) type name, so that two default-arm values
whose concrete type names differ never receive the same symbolic type. -/
theorem claim_C4 :
    (∀ v : GoValue, isDefaultCase v = true →
      valueToCelType v = .object (reflectTypeString v)) ∧
    (∀ v w : GoValue, isDefaultCase v = true → isDefaultCase w = true →
      reflectTypeString v ≠ reflectTypeString w →
      valueToCelType v ≠ valueToCelType w) ∧
    (∀ b, valueToCelType (.goBool b) = .bool) ∧
    (∀ s, valueToCelType (.goString s) = .string) ∧
    (∀ n : Int, valueToCelType (.goInt n) = .int ∧
      valueToCelType (.goInt32 n) = .int ∧ valueToCelType (.goInt64 n) = .int) ∧
    (∀ n : Nat, valueToCelType (.goUint n) = .uint ∧
      valueToCelType (.goUint32 n) = .uint ∧ valueToCelType (.goUint64 n) = .uint) ∧
    (∀ q : Rat, valueToCelType (.goFloat32 q) = .double ∧
      valueToCelType (.goFloat64 q) = .double) ∧
    (∀ bs, valueToCelType (.goBytes bs) = .bytes) ∧
    (∀ sec nsec, valueToCelType (.goTime sec nsec) = .timestamp) ∧
    (∀ kvs, valueToCelType (.goMapStrAny kvs) = .map .string .dyn ∧
      valueToCelType (.goMapStrPb kvs) = .map .string .dyn) ∧
    (∀ xs, valueToCelType (.goSliceAny xs) = .list .dyn) ∧
    valueToCelType .goNil = .null ∧
    (∀ nm, valueToCelType (.goProtoMsg nm) = .dyn) := by
  refine ⟨?_, ?_, ?_, ?_, ?_, ?_, ?_, ?_, ?_, ?_, ?_, ?_, ?_⟩
  · intro v hv
    cases v <;> simp [isDefaultCase] at hv <;> rfl
  · intro v w hv hw hnm heq
    apply hnm
    have h1 : valueToCelType v = .object (reflectTypeString v) := by
      cases v <;> simp [isDefaultCase] at hv <;> rfl
    have h2 : valueToCelType w = .object (reflectTypeString w) := by
      cases w <;> simp [isDefaultCase] at hw <;> rfl
    have := h1 ▸ h2 ▸ heq
    exact CelType.object.inj this
  · intro b; rfl
  · intro s0; rfl
  · intro n; exact ⟨rfl, rfl, rfl⟩
  · intro n; exact ⟨rfl, rfl, rfl⟩
  · intro q; exact ⟨rfl, rfl⟩
  · intro bs; rfl
  · intro sec nsec; rfl
  · intro kvs; exact ⟨rfl, rfl⟩
  · intro xs; rfl
  · rfl
  · intro nm; rfl

/-- Witness for C4 (amended): two concrete default-arm values with
different concrete type names receive distinct symbolic types. -/
theorem claim_C4_witness :
    valueToCelType (.goOther "foo.T") ≠ valueToCelType (.goOther "bar.T") :=
  claim_C4.2.1 (.goOther "foo.T") (.goOther "bar.T") rfl rfl (by decide)


/-- The declared type and the bound value of each top-level key come from
the same parsed value: the runtime kind of the adapted value always
equals the classified type. -/
theorem celKindOf_jsonToCelVal (v : Json) :
    celKindOf (jsonToCelVal v) = valueToCelType (jsonToGoValue v) := by
  cases v <;> rfl

/-- C9: for every evaluation call, each top-level key `k` of the parsed
value map is declared in the environment with exactly the type classified
from its value `v` in that map, the binding passed to program evaluation
binds `k` to that same value `v`, and the runtime kind of the bound value
equals the declared type — so declared kind = runtime kind holds by
construction. -/
theorem claim_C9 (raw : RawData) (m : List (String × Json))
    (h : unmarshalMap raw = some m) (k : String) (v : Json)
    (hm : (k, v) ∈ m) :
    (k, valueToCelType (jsonToGoValue v)) ∈ docDecls m ∧
    (k, jsonToCelVal v) ∈ docBindings m ∧
    celKindOf (jsonToCelVal v) = valueToCelType (jsonToGoValue v) := by
  refine ⟨?_, ?_, celKindOf_jsonToCelVal v⟩
  · exact List.mem_map.mpr ⟨(k, v), hm, rfl⟩
  · exact List.mem_map.mpr ⟨(k, v), hm, rfl⟩

/-- Witness for C9 at the concrete document `{"age": 30}`. -/
theorem claim_C9_witness :
    ("age", valueToCelType (jsonToGoValue (.num 30))) ∈ docDecls [("age", .num 30)] ∧
    ("age", jsonToCelVal (.num 30)) ∈ docBindings [("age", .num 30)] ∧
    celKindOf (jsonToCelVal (.num 30)) = valueToCelType (jsonToGoValue (.num 30)) :=
  claim_C9 (.wellFormed (.obj [("age", .num 30)])) [("age", .num 30)] rfl
    "age" (.num 30) (List.mem_singleton.mpr rfl)

/-- C2: each `safe` overload returns the value at the path exactly when a
value exists there whose gjson kind matches the overload's type
(String / Number / True-False respectively), and returns the caller's
default in every other case — path missing, malformed document, or a
value of any other kind.  All three are total functions of the raw
document, so they never raise. -/
theorem claim_C2 (d : RawData) (path : List String) :
    (∀ s dfltS, gjsonGet d path = some (.str s) → safeString d path dfltS = s) ∧
    (∀ dfltS, (∀ s, gjsonGet d path ≠ some (.str s)) →
      safeString d path dfltS = dfltS) ∧
    (∀ q dfltN, gjsonGet d path = some (.num q) → safeNum d path dfltN = q) ∧
    (∀ dfltN, (∀ q, gjsonGet d path ≠ some (.num q)) →
      safeNum d path dfltN = dfltN) ∧
    (∀ b dfltB, gjsonGet d path = some (.bool b) → safeBool d path dfltB = b) ∧
    (∀ dfltB, (∀ b, gjsonGet d path ≠ some (.bool b)) →
      safeBool d path dfltB = dfltB) := by
  refine ⟨?_, ?_, ?_, ?_, ?_, ?_⟩
  · intro s dfltS h; simp [safeString, h]
  · intro dfltS h
    unfold safeString
    rcases hv : gjsonGet d path with _ | j
    · rfl
    · cases j with
      | str s => exact absurd hv (h s)
      | null => rfl
      | bool b => rfl
      | num q => rfl
      | arr xs => rfl
      | obj kvs => rfl
  · intro q dfltN h; simp [safeNum, h]
  · intro dfltN h
    unfold safeNum
    rcases hv : gjsonGet d path with _ | j
    · rfl
    · cases j with
      | num q => exact absurd hv (h q)
      | null => rfl
      | bool b => rfl
      | str s => rfl
      | arr xs => rfl
      | obj kvs => rfl
  · intro b dfltB h; simp [safeBool, h]
  · intro dfltB h
    unfold safeBool
    rcases hv : gjsonGet d path with _ | j
    · rfl
    · cases j with
      | bool b => exact absurd hv (h b)
      | null => rfl
      | num q => rfl
      | str s => rfl
      | arr xs => rfl
      | obj kvs => rfl

/-- Witness for C2 at the concrete document
`{"a": "x", "b": 2, "c": true}`: a matching kind returns the value, a
missing path and a mismatched kind return the default. -/
theorem claim_C2_witness :
    safeString (.wellFormed (.obj [("a", .str "x"), ("b", .num 2), ("c", .bool true)]))
        ["a"] "dflt" = "x" ∧
    safeNum (.wellFormed (.obj [("a", .str "x"), ("b", .num 2), ("c", .bool true)]))
        ["missing"] 7 = 7 ∧
    safeNum (.wellFormed (.obj [("a", .str "x"), ("b", .num 2), ("c", .bool true)]))
        ["a"] 7 = 7 ∧
    safeBool (.wellFormed (.obj [("a", .str "x"), ("b", .num 2), ("c", .bool true)]))
        ["c"] false = true := by
  refine ⟨?_, ?_, ?_, ?_⟩
  · exact (claim_C2 _ ["a"]).1 "x" "dflt" rfl
  · exact (claim_C2 _ ["missing"]).2.2.2.1 7
      (by intro q h; exact Option.noConfusion h)
  · exact (claim_C2 _ ["a"]).2.2.2.1 7
      (by intro q h; exact Json.noConfusion (Option.some.inj h))
  · exact (claim_C2 _ ["c"]).2.2.2.2.1 true false rfl

/-- C8: when evaluation completes without an execution error, the result
is returned as the verdict exactly when its runtime kind is Bool; a
result of any other kind yields the non-boolean-result error instead. -/
theorem claim_C8 (raw : RawData) (m : List (String × Json)) (e : Expr)
    (x : List (String × CelType)) (ids : List (String × CelType)) (v : CelVal)
    (h1 : unmarshalMap raw = some m)
    (h2 : addIdents (x ++ docDecls m) = (ids, []))
    (h3 : (check ids e).2 = [])
    (h4 : evalExpr raw (docBindings m) e = .ok v) :
    (∀ b, v = .bool b → Evaluate (some raw) e x
      = ⟨b, none, [.unmarshal, .newEnv, .compile, .program, .eval, .validate]⟩) ∧
    ((∀ b, v ≠ .bool b) → Evaluate (some raw) e x
      = ⟨false, some .nonBoolean,
          [.unmarshal, .newEnv, .compile, .program, .eval, .validate]⟩) := by
  rcases hc : check ids e with ⟨t, ciss⟩
  rw [hc] at h3
  simp only at h3
  subst h3
  constructor
  · intro b hb
    subst hb
    unfold Evaluate
    simp only [h1, h2, hc, h4]
  · intro hb
    rcases v with b | q | s0 | _ | xs | kvs
    · exact absurd rfl (hb b)
    all_goals
      unfold Evaluate
      simp only [h1, h2, hc, h4]

/-- Witness for C8 at the concrete document `{"ok": true}` with the
expression `ok`. -/
theorem claim_C8_witness :
    Evaluate (some (.wellFormed (.obj [("ok", .bool true)]))) (.ident "ok") []
      = ⟨true, none, [.unmarshal, .newEnv, .compile, .program, .eval, .validate]⟩ :=
  (claim_C8 (.wellFormed (.obj [("ok", .bool true)])) [("ok", .bool true)]
    (.ident "ok") [] [("ok", .bool)] (.bool true) rfl (by decide) (by decide) rfl).1
    true rfl


/-- The spec-side notion for C3, stated from the spec's words: "a value is
reachable at `path`" in the raw document structure.  The whole document is
reachable at the empty path; one more segment descends into the named
object field (first occurrence of the key) or the decimally-indexed array
element. -/
inductive Reachable : Json → List String → Prop where
  | here (j : Json) : Reachable j []
  | inObj {kvs : List (String × Json)} {s : String} {v : Json}
      {rest : List String} : List.lookup s kvs = some v →
      Reachable v rest → Reachable (.obj kvs) (s :: rest)
  | inArr {xs : List Json} {s : String} {i : Nat} {v : Json}
      {rest : List String} : segIndex s = some i → xs.get? i = some v →
      Reachable v rest → Reachable (.arr xs) (s :: rest)

/-- The implementation-side lookup finds a value exactly when one is
reachable in the spec's sense. -/
theorem getPath_isSome_iff_reachable :
    ∀ (path : List String) (j : Json),
      (getPath j path).isSome = true ↔ Reachable j path := by
  intro path
  induction path with
  | nil =>
    intro j
    constructor
    · intro _; exact Reachable.here j
    · intro _; rfl
  | cons s rest ih =>
    intro j
    cases j with
    | obj kvs =>
      rcases hl : List.lookup s kvs with _ | v
      · constructor
        · intro h
          rw [getPath] at h
          simp only [getSeg, hl] at h
          cases h
        · intro h
          cases h with
          | inObj hl2 _ => rw [hl] at hl2; cases hl2
      · constructor
        · intro h
          rw [getPath] at h
          simp only [getSeg, hl] at h
          exact Reachable.inObj hl ((ih v).mp h)
        · intro h
          rw [getPath]
          simp only [getSeg, hl]
          cases h with
          | inObj hl2 hr =>
            rw [hl] at hl2
            exact (ih v).mpr (Option.some.inj hl2 ▸ hr)
    | arr xs =>
      rcases hi : segIndex s with _ | i
      · constructor
        · intro h
          rw [getPath] at h
          simp only [getSeg, hi] at h
          cases h
        · intro h
          cases h with
          | inArr hi2 _ _ => rw [hi] at hi2; cases hi2
      · rcases hv : xs.get? i with _ | v
        · constructor
          · intro h
            rw [getPath] at h
            simp only [getSeg, hi, hv] at h
            cases h
          · intro h
            cases h with
            | inArr hi2 hv2 _ =>
              rw [hi] at hi2
              rw [← Option.some.inj hi2] at hv2
              rw [hv] at hv2
              cases hv2
        · constructor
          · intro h
            rw [getPath] at h
            simp only [getSeg, hi, hv] at h
            exact Reachable.inArr hi hv ((ih v).mp h)
          · intro h
            rw [getPath]
            simp only [getSeg, hi, hv]
            cases h with
            | inArr hi2 hv2 hr =>
              rw [hi] at hi2
              rw [← Option.some.inj hi2] at hv2
              rw [hv] at hv2
              exact (ih v).mpr (Option.some.inj hv2 ▸ hr)
    | null =>
      constructor
      · intro h; rw [getPath] at h; simp only [getSeg] at h; cases h
      · intro h; cases h
    | bool b =>
      constructor
      · intro h; rw [getPath] at h; simp only [getSeg] at h; cases h
      · intro h; cases h
    | num q =>
      constructor
      · intro h; rw [getPath] at h; simp only [getSeg] at h; cases h
      · intro h; cases h
    | str s0 =>
      constructor
      · intro h; rw [getPath] at h; simp only [getSeg] at h; cases h
      · intro h; cases h

/-- C3: `exists(path)` is true exactly when a value is reachable at that
path in the raw document structure; on malformed raw text it is false;
and within the evaluator, the registered `exists` function always returns
an ok boolean — it never errors on a missing path and its result is
independent of the variable bindings, hence of whether the path's root
key is a declared top-level variable. -/
theorem claim_C3 :
    (∀ (j : Json) (path : List String),
      celExists (.wellFormed j) path = true ↔ Reachable j path) ∧
    (∀ path, celExists .malformed path = false) ∧
    (∀ (d : RawData) (binds : List (String × CelVal)) (p : String),
      evalExpr d binds (.un .existsFn (.lit (.str p)))
        = .ok (.bool (celExists d (parsePath p)))) := by
  refine ⟨?_, ?_, ?_⟩
  · intro j path
    exact getPath_isSome_iff_reachable path j
  · intro path; rfl
  · intro d binds p; rfl

/-- Witness for C3 at the document `{"a": {"b": 1}}`: `a.b` is reachable
and `exists` sees it, with or without any variable binding for `a`. -/
theorem claim_C3_witness :
    celExists (.wellFormed (.obj [("a", .obj [("b", .num 1)])])) ["a", "b"] = true ∧
    evalExpr (.wellFormed (.obj [("a", .obj [("b", .num 1)])])) []
        (.un .existsFn (.lit (.str "a.b")))
      = .ok (.bool true) := by
  constructor
  · exact (claim_C3.1 (.obj [("a", .obj [("b", .num 1)])]) ["a", "b"]).mpr
      (.inObj rfl (.inObj rfl (.here _)))
  · rw [claim_C3.2.2 (.wellFormed (.obj [("a", .obj [("b", .num 1)])])) [] "a.b"]
    rfl


/-- All identifiers referenced by an expression. -/
def identNames : Expr → List String
  | .lit _ => []
  | .ident n => [n]
  | .un _ a => identNames a
  | .bin _ a b => identNames a ++ identNames b

/-- Every identifier that is not declared in the environment contributes
an undeclared-reference issue to the checker's issue list: the checker
keeps going after an error, so all of them are enumerated. -/
theorem check_undeclared_mem (n : String) :
    ∀ (e : Expr) (ids : List (String × CelType)),
      n ∈ identNames e → List.lookup n ids = none →
      Issue.undeclared n ∈ (check ids e).2 := by
  intro e
  induction e with
  | lit v => intro ids h _; simp [identNames] at h
  | ident m =>
    intro ids h hl
    simp [identNames] at h
    subst h
    simp [check, hl]
  | un op a iha =>
    intro ids h hl
    have hmem := iha ids (by simpa [identNames] using h) hl
    cases op
    · exact List.mem_append_left _ hmem
    · exact List.mem_append_left _ hmem
  | bin op a b iha ihb =>
    intro ids h hl
    rcases List.mem_append.mp (by simpa [identNames] using h) with ha | hb2
    · have hmem := iha ids ha hl
      cases op
      · exact List.mem_append_left _ (List.mem_append_left _ hmem)
      · exact List.mem_append_left _ (List.mem_append_left _ hmem)
      · exact List.mem_append_left _ (List.mem_append_left _ hmem)
      · exact List.mem_append_left _ (List.mem_append_left _ hmem)
      · exact List.mem_append_left _ (List.mem_append_left _ hmem)
      · exact List.mem_append_left _ (List.mem_append_left _ hmem)
    · have hmem := ihb ids hb2 hl
      cases op
      · exact List.mem_append_left _ (List.mem_append_right _ hmem)
      · exact List.mem_append_left _ (List.mem_append_right _ hmem)
      · exact List.mem_append_left _ (List.mem_append_right _ hmem)
      · exact List.mem_append_left _ (List.mem_append_right _ hmem)
      · exact List.mem_append_left _ (List.mem_append_right _ hmem)
      · exact List.mem_append_left _ (List.mem_append_right _ hmem)

/-- C7: when the checker finds issues — undeclared identifiers, overload
mismatches, or operator type mismatches — `Evaluate` fails at the compile
stage with a CompileError carrying the checker's FULL issue list, and the
program/eval stages never run (so no EvaluationError can arise); and every
undeclared identifier of the expression is among the enumerated issues. -/
theorem claim_C7 :
    (∀ (raw : RawData) (m : List (String × Json)) (e : Expr)
      (x ids : List (String × CelType)),
      unmarshalMap raw = some m →
      addIdents (x ++ docDecls m) = (ids, []) →
      (check ids e).2 ≠ [] →
      Evaluate (some raw) e x
        = ⟨false, some (.compileErr (check ids e).2),
            [.unmarshal, .newEnv, .compile]⟩) ∧
    (∀ (ids : List (String × CelType)) (e : Expr) (n : String),
      n ∈ identNames e → List.lookup n ids = none →
      Issue.undeclared n ∈ (check ids e).2) := by
  constructor
  · intro raw m e x ids h1 h2 h3
    rcases hc : check ids e with ⟨t, ciss⟩
    rw [hc] at h3
    simp only at h3
    rcases ciss with _ | ⟨i, is0⟩
    · exact absurd rfl h3
    · unfold Evaluate
      simp only [h1, h2, hc]
  · exact fun ids e n h hl => check_undeclared_mem n e ids h hl

/-- Witness for C7: a document `{"a": 1}` and the expression
`zzz && www` with two undeclared identifiers — compilation fails with
both issues enumerated and evaluation never runs. -/
theorem claim_C7_witness :
    Evaluate (some (.wellFormed (.obj [("a", .num 1)])))
        (.bin .andOp (.ident "zzz") (.ident "www")) []
      = ⟨false, some (.compileErr [.undeclared "zzz", .undeclared "www"]),
          [.unmarshal, .newEnv, .compile]⟩ ∧
    Issue.undeclared "zzz" ∈ (check [("a", CelType.double)]
        (.bin .andOp (.ident "zzz") (.ident "www"))).2 := by
  constructor
  · have h := claim_C7.1 (.wellFormed (.obj [("a", .num 1)])) [("a", .num 1)]
      (.bin .andOp (.ident "zzz") (.ident "www")) [] [("a", CelType.double)]
      rfl (by decide) (by decide)
    exact h.trans (by decide)
  · exact claim_C7.2 [("a", CelType.double)]
      (.bin .andOp (.ident "zzz") (.ident "www")) "zzz" (by decide) (by decide)

/-- Counterexample to C1 as stated: the document `{"a": "hello"}`
classifies `a` as String; the caller additionally declares `a` as Double.
The claim says the caller's declaration takes precedence, so the
expression `a > 1.0` would compile (second conjunct: against the caller's
declaration alone it is issue-free) and be evaluated.  Instead, `Evaluate`
fails at the compile stage with an overlapping-identifier issue: the
document-derived declaration collides with the caller's instead of being
overridden by it. -/
theorem claim_C1_counterexample :
    Evaluate (some (.wellFormed (.obj [("a", .str "hello")])))
        (.bin .gtOp (.ident "a") (.lit (.num 1))) [("a", CelType.double)]
      = ⟨false, some (.compileErr [.overlapping "a"]),
          [.unmarshal, .newEnv, .compile]⟩ ∧
    (check [("a", CelType.double)]
        (.bin .gtOp (.ident "a") (.lit (.num 1)))).2 = [] := by
  exact ⟨by decide, by decide⟩

/-- C1 (amended): when a caller-supplied extra declaration declares the
same variable name as a top-level key of the parsed document with a kind
DIFFERENT from the kind classified from the document value, the pipeline
fails at the compile stage with an overlapping-identifier issue for that
name — the caller's declaration does not silently take precedence, and
the expression is neither compiled nor evaluated against the caller's
kind.  (When the kinds coincide the redeclaration is a no-op and no
conflict arises.) -/
theorem claim_C1 (raw : RawData) (m : List (String × Json)) (e : Expr)
    (k : String) (t : CelType) (v : Json)
    (h1 : unmarshalMap raw = some m) (h2 : (k, v) ∈ m)
    (h3 : t ≠ valueToCelType (jsonToGoValue v)) :
    ∃ iss, Evaluate (some raw) e [(k, t)]
        = ⟨false, some (.compileErr iss), [.unmarshal, .newEnv, .compile]⟩ ∧
      Issue.overlapping k ∈ iss := by
  have hdoc : (k, valueToCelType (jsonToGoValue v)) ∈ docDecls m :=
    List.mem_map.mpr ⟨(k, v), h2, rfl⟩
  have hov : Issue.overlapping k ∈ (addIdents ([(k, t)] ++ docDecls m)).2 := by
    show Issue.overlapping k ∈ (addIdentsAux [] [] ((k, t) :: docDecls m)).2
    have hstep : addIdentsAux [] [] ((k, t) :: docDecls m)
        = addIdentsAux [(k, t)] [] (docDecls m) := rfl
    rw [hstep]
    exact addIdentsAux_conflict (docDecls m) [(k, t)] []
      (by simp [List.lookup]) hdoc h3
  rcases ha : addIdents ([(k, t)] ++ docDecls m) with ⟨ids, iss⟩
  rw [ha] at hov
  rcases iss with _ | ⟨i, is0⟩
  · simp at hov
  · refine ⟨i :: is0, ?_, hov⟩
    unfold Evaluate
    simp only [h1, ha]

/-- Witness for C1 (amended) at the concrete conflicting declaration
`("a", Double)` against the document `{"a": "hello"}`. -/
theorem claim_C1_witness :
    ∃ iss, Evaluate (some (.wellFormed (.obj [("a", .str "hello")])))
        (.lit (.bool true)) [("a", CelType.double)]
        = ⟨false, some (.compileErr iss), [.unmarshal, .newEnv, .compile]⟩ ∧
      Issue.overlapping "a" ∈ iss :=
  claim_C1 (.wellFormed (.obj [("a", .str "hello")])) [("a", .str "hello")]
    (.lit (.bool true)) "a" CelType.double (.str "hello") rfl
    (List.mem_singleton.mpr rfl) (by decide)

end GoSdk
